import Mathlib

/-!
Verification development for the `telemetr_search` pipeline
(`bot/services/telemetr_search.py`): a shallow embedding of the
fetch–normalize–filter–match pipeline, followed by theorems checking the
specification's claims against it.

Modelling conventions:
* Python values reaching the code's dynamic operations are modelled by
  `PyVal` (strings, integers, `None`); a provider item is a `RawItem`
  (a mapping, a bare string, or anything else).
* A Python `dict` is an association list with first-binding lookup;
  assignment (`d[k] = v`) replaces the binding in place or appends.
* The Unicode steps `unicodedata.normalize("NFKC", s).lower()` of
  `_norm_basic` are table-driven library calls; they are abstracted as an
  explicit function parameter (`nfkcLower` in `Config`) applied exactly
  where the code applies them.
* Network I/O is an oracle `RequestParams → PageResp`: for each issued
  request the oracle reports either a transport/JSON exception (`raise`),
  a non-success envelope (`notOk`, which the code turns into zero items),
  or a success envelope with its items.
* A Python exception escaping `search_telemetr` is modelled by
  `Except.error`; the requests issued before the failure are still
  reported in the `requests` trace.
-/

namespace TelemetrSearch

/-- A dynamic (Python) value as far as this pipeline inspects one. -/
inductive PyVal where
  | vStr (s : String)
  | vInt (n : Int)
  | vNone
deriving DecidableEq

/-- Python truthiness for the values above. -/
def PyVal.truthy : PyVal → Bool
  | .vStr s => s ≠ ""
  | .vInt n => n ≠ 0
  | .vNone => false

/-- Python `a or b` (returns the first truthy operand, else the last). -/
def pyOr (a b : PyVal) : PyVal := if a.truthy then a else b

/-- `str()` rendering used by f-string interpolation of a value. -/
def PyVal.str : PyVal → String
  | .vStr s => s
  | .vInt n => toString n
  | .vNone => "None"

/-- A Python `dict` as the pipeline sees one: association list with
first-binding lookup semantics. -/
abbrev Dict := List (String × PyVal)

/-- `d.get(k)`: first binding of `k`, if any. -/
def dget (d : Dict) (k : String) : Option PyVal :=
  match d with
  | [] => none
  | (k0, v) :: rest => if k0 = k then some v else dget rest k

/-- `d.get(k)` with Python's `None` default. -/
def dgetV (d : Dict) (k : String) : PyVal :=
  match dget d k with
  | some v => v
  | none => .vNone

/-- `d[k] = v`: replace the binding of `k` in place, or append it. -/
def dset (d : Dict) (k : String) (v : PyVal) : Dict :=
  match d with
  | [] => [(k, v)]
  | (k0, v0) :: rest => if k0 = k then (k, v) :: rest else (k0, v0) :: dset rest k v

/-- A raw provider item: a mapping, a bare string, or any other shape. -/
inductive RawItem where
  | dict (d : Dict)
  | str (s : String)
  | other
deriving DecidableEq

/-- Whether a raw item is a mapping. -/
def RawItem.isMapping : RawItem → Bool
  | .dict _ => true
  | _ => false

/-! ### Python string primitives -/

/-- Characters Python's `str.strip()` / `\s` treat as whitespace
(the ASCII set plus the common Unicode space code points). -/
def isPySpace (c : Char) : Bool :=
  c = ' ' ∨ c = '\t' ∨ c = '\n' ∨ c = '\r' ∨
  c.toNat = 11 ∨ c.toNat = 12 ∨ c.toNat = 133 ∨ c.toNat = 160 ∨
  c.toNat = 0x2028 ∨ c.toNat = 0x2029 ∨ c.toNat = 0x3000 ∨
  (0x2000 ≤ c.toNat ∧ c.toNat ≤ 0x200A)

/-- Strip leading and trailing whitespace from a character list. -/
def stripL (l : List Char) : List Char :=
  ((l.dropWhile isPySpace).reverse.dropWhile isPySpace).reverse

/-- Python `s.strip()`. -/
def pyStrip (s : String) : String := ⟨stripL s.data⟩

/-- Split a character list on whitespace runs, dropping empty pieces. -/
def splitWsAux : List Char → List Char → List (List Char)
  | [], acc => if acc.isEmpty then [] else [acc.reverse]
  | c :: cs, acc =>
    if isPySpace c then
      if acc.isEmpty then splitWsAux cs [] else acc.reverse :: splitWsAux cs []
    else splitWsAux cs (c :: acc)

/-- The whitespace-separated words of a character list. -/
def splitWsL (l : List Char) : List (List Char) := splitWsAux l []

/-- Join character lists with a separator character. -/
def joinWith (sep : Char) : List (List Char) → List Char
  | [] => []
  | [w] => w
  | w :: rest => w ++ sep :: joinWith sep rest

/-- Join strings with a newline, as `"\n".join(...)`. -/
def joinNl : List String → String
  | [] => ""
  | [s] => s
  | s :: rest => s ++ "\n" ++ joinNl rest

/-- Digits of a Python `int()` literal body (non-empty, all decimal). -/
def digitsVal : List Char → Option Nat
  | [] => none
  | l => go l 0
where
  go : List Char → Nat → Option Nat
    | [], acc => some acc
    | c :: cs, acc => if c.isDigit then go cs (acc * 10 + (c.toNat - 48)) else none

/-- Python `int(s)` on a string: surrounding whitespace, optional sign,
then decimal digits; `none` models the raised `ValueError`. -/
def pyParseInt (s : String) : Option Int :=
  match stripL s.data with
  | '+' :: rest => (digitsVal rest).map Int.ofNat
  | '-' :: rest => (digitsVal rest).map (fun n => -(n : Int))
  | l => (digitsVal l).map Int.ofNat

/-- Python `int(v)` on a pipeline value (`none` models a raised error). -/
def intOfPy : PyVal → Option Int
  | .vInt n => some n
  | .vStr s => pyParseInt s
  | .vNone => none

/-- A single-quote character, for diagnostic strings. -/
def sq : String := ⟨[Char.ofNat 39]⟩

/-! ### Dates (`_plus_one_day`) -/

/-- Gregorian leap year. -/
def isLeap (y : Nat) : Bool := (y % 4 = 0 ∧ y % 100 ≠ 0) ∨ y % 400 = 0

/-- Days in a month. -/
def daysInMonth (y m : Nat) : Nat :=
  if m = 2 then (if isLeap y then 29 else 28)
  else if m = 4 ∨ m = 6 ∨ m = 9 ∨ m = 11 then 30
  else 31

/-- Parse a strict `YYYY-MM-DD` date, validating ranges as
`datetime.fromisoformat` does (the code only ever passes such strings;
the other formats `fromisoformat` tolerates are not modelled). -/
def parseIsoDate (s : String) : Option (Nat × Nat × Nat) :=
  match s.data with
  | [y1, y2, y3, y4, h1, m1, m2, h2, d1, d2] =>
    if y1.isDigit ∧ y2.isDigit ∧ y3.isDigit ∧ y4.isDigit ∧ h1 = '-' ∧
       m1.isDigit ∧ m2.isDigit ∧ h2 = '-' ∧ d1.isDigit ∧ d2.isDigit then
      let y := ((y1.toNat - 48) * 1000 + (y2.toNat - 48) * 100 +
                (y3.toNat - 48) * 10 + (y4.toNat - 48))
      let m := (m1.toNat - 48) * 10 + (m2.toNat - 48)
      let d := (d1.toNat - 48) * 10 + (d2.toNat - 48)
      if 1 ≤ y ∧ 1 ≤ m ∧ m ≤ 12 ∧ 1 ≤ d ∧ d ≤ daysInMonth y m then
        some (y, m, d)
      else none
    else none
  | _ => none

/-- The day after a valid date. -/
def nextDay (y m d : Nat) : Nat × Nat × Nat :=
  if d < daysInMonth y m then (y, m, d + 1)
  else if m < 12 then (y, m + 1, 1)
  else (y + 1, 1, 1)

/-- Left-pad a numeral to two digits. -/
def pad2 (n : Nat) : String := if n < 10 then "0" ++ toString n else toString n

/-- Left-pad a numeral to four digits. -/
def pad4 (n : Nat) : String :=
  if n < 10 then "000" ++ toString n
  else if n < 100 then "00" ++ toString n
  else if n < 1000 then "0" ++ toString n
  else toString n

/-- `_plus_one_day`: advance an ISO date by one day; on any parse (or
overflow) failure the input is returned unchanged, as the code's broad
`except` does. -/
def plusOneDay (s : String) : String :=
  match parseIsoDate s with
  | none => s
  | some (y, m, d) =>
    if y = 9999 ∧ m = 12 ∧ d = 31 then s
    else
      match nextDay y m d with
      | (y2, m2, d2) => pad4 y2 ++ "-" ++ pad2 m2 ++ "-" ++ pad2 d2

/-- Numeric key of an ISO date, for comparing two dates. -/
def isoKey (s : String) : Option Nat :=
  (parseIsoDate s).map (fun t => t.1 * 10000 + t.2.1 * 100 + t.2.2)

/-! ### Item normalization (`_as_dict`, `_body_from_item`, `_views_of`, `_link_of`) -/

/-- `_as_dict`: a mapping stays itself, a bare string becomes
`{"text": s}`, any other shape becomes the empty dict. -/
def asDict : RawItem → Dict
  | .dict d => d
  | .str s => [("text", .vStr s)]
  | .other => []

/-- The value `it.get(k) or ""` that `_body_from_item` strips. -/
def fieldVal (d : Dict) (k : String) : PyVal := pyOr (dgetV d k) (.vStr "")

/-- `.strip()` on a field value; a truthy non-string has no `.strip`
attribute, so Python raises (`Except.error`). -/
def stripField : PyVal → Except String String
  | .vStr s => .ok (pyStrip s)
  | _ => .error "AttributeError: strip"

/-- `_body_from_item`: newline-join of the stripped, non-empty `title`,
`text`, `caption` fields, stripped once more. -/
def bodyFromItem (d : Dict) : Except String String := do
  let t ← stripField (fieldVal d "title")
  let x ← stripField (fieldVal d "text")
  let c ← stripField (fieldVal d "caption")
  let parts := [t, x, c].filter (fun s => s ≠ "")
  return ⟨stripL (joinWith '\n' (parts.map String.data))⟩

/-- `_views_of`: `int(it.get("views") or it.get("views_count") or 0)`,
with the raised parse error caught to `0`. -/
def viewsOf (d : Dict) : Int :=
  match intOfPy (pyOr (pyOr (dgetV d "views") (dgetV d "views_count")) (.vInt 0)) with
  | some n => n
  | none => 0

/-- `_link_of`: first truthy of `display_url`, `url`, `link`, else `""`. -/
def linkOf (d : Dict) : PyVal :=
  pyOr (pyOr (pyOr (dgetV d "display_url") (dgetV d "url")) (dgetV d "link")) (.vStr "")

/-! ### Phrase matching (`_norm_basic`, `_contains_exact_phrase_word_boundary`) -/

/-- `_norm_basic`: NFKC + lowercase (the abstracted `f`), then collapse
whitespace runs to single spaces and strip. -/
def normBasic (f : String → String) (s : String) : String :=
  if s = "" then "" else ⟨joinWith ' ' (splitWsL (f s).data)⟩

/-- The regex class `[0-9A-Za-zА-Яа-яЁё_]` used for word boundaries. -/
def isBoundaryChar (c : Char) : Bool :=
  c.isDigit ∨ ('A' ≤ c ∧ c ≤ 'Z') ∨ ('a' ≤ c ∧ c ≤ 'z') ∨
  (1040 ≤ c.toNat ∧ c.toNat ≤ 1103) ∨ c.toNat = 1025 ∨ c.toNat = 1105 ∨ c = '_'

/-- The escaped needle matches at position `i` of the haystack with the
lookbehind `(?<![class])` and lookahead `(?![class])` satisfied. -/
def occursBoundedAt (n h : List Char) (i : Nat) : Bool :=
  ((h.drop i).take n.length = n) ∧
  (i = 0 ∨ ¬ isBoundaryChar (h.getD (i - 1) ' ')) ∧
  (h.length ≤ i + n.length ∨ ¬ isBoundaryChar (h.getD (i + n.length) ' '))

/-- `_contains_exact_phrase_word_boundary`: normalize needle and
haystack, then search for a boundary-flanked literal occurrence. -/
def containsExactPhraseWordBoundary (f : String → String) (needle haystack : String) : Bool :=
  let n := normBasic f needle
  let h := normBasic f haystack
  if n = "" ∨ h = "" then false
  else (List.range (h.data.length + 1)).any (occursBoundedAt n.data h.data)

/-! ### Configuration and requests -/

/-- The environment-derived policy toggles, plus the abstracted Unicode
normalization used by `_norm_basic`. -/
structure Config where
  token : String
  useQuotes : Bool
  requireExact : Bool
  trustQuery : Bool
  minViews : Int
  pages : Nat
  dateToInclusive : Bool
  organicDebug : Bool
  nfkcLower : String → String

/-- `_normalize_seed`: strip, and wrap in double quotes when the policy
asks for it and the seed is not already quoted. -/
def normalizeSeed (cfg : Config) (seed : String) : String :=
  let s := pyStrip seed
  if cfg.useQuotes ∧ s ≠ "" ∧
     ¬ ((s.data.head? = some '"') ∧ (s.data.getLast? = some '"')) then
    "\"" ++ s ++ "\""
  else s

/-- The parameters (and bearer header) of one issued page request. -/
structure RequestParams where
  query : String
  date_from : String
  date_to : String
  limit : Nat
  page : Nat
  bearer : String
deriving DecidableEq

/-- The request `_fetch_page` issues for a page. -/
def buildParams (cfg : Config) (query since untl : String) (page : Nat) : RequestParams :=
  { query := query
    date_from := since
    date_to := if cfg.dateToInclusive then plusOneDay untl else untl
    limit := 50
    page := page
    bearer := cfg.token }

/-- What the network oracle reports for one issued request: a raised
transport/JSON exception, a non-success envelope (the code then returns
zero items and an error meta), or a success envelope with its items. -/
inductive PageResp where
  | raise (msg : String)
  | notOk
  | ok (items : List RawItem)

/-- The `repr` of the missing-credential `RuntimeError`, as interpolated
into the diagnostics by `{e!r}`. -/
def tokenErrMsg : String := "RuntimeError(" ++ sq ++ "TELEMETR_TOKEN is not set" ++ sq ++ ")"

/-- `_fetch_page`: raises when the credential is missing (before issuing
any request); otherwise issues exactly one request and reports its items.
The unused `count`/`total_count` meta is dropped, as the caller drops it.
Returns the issued requests alongside the outcome. -/
def fetchPage (cfg : Config) (oracle : RequestParams → PageResp)
    (query since untl : String) (page : Nat) :
    List RequestParams × Except String (List RawItem) :=
  if cfg.token = "" then ([], .error tokenErrMsg)
  else
    let p := buildParams cfg query since untl page
    match oracle p with
    | .raise msg => ([p], .error msg)
    | .notOk => ([p], .ok [])
    | .ok items => ([p], .ok items)

/-! ### The search pipeline (`search_telemetr`) -/

/-- The diagnostic line the page loop appends when a page fetch raises. -/
def fetchErrLine (rawSeed : String) (page : Nat) (e : String) : String :=
  "seed=" ++ sq ++ rawSeed ++ sq ++ ": fetch page=" ++ toString page ++ " error: " ++ e

/-- The per-seed summary diagnostic line. -/
def seedSummaryLine (rawSeed : String) (fetched malformed filtered matchedN : Nat) : String :=
  "seed=" ++ sq ++ rawSeed ++ sq ++ ": fetched=" ++ toString fetched ++
  " malformed=" ++ toString malformed ++ " filtered_by_views=" ++ toString filtered ++
  " matched=" ++ toString matchedN

/-- Collected output of the page loop for one seed. -/
structure FetchOut where
  items : List RawItem
  diag : List String
  reqs : List RequestParams
deriving DecidableEq

/-- The page loop body, iterating `rem` more pages starting at `page`:
a raised fetch aborts the loop (with a diagnostic line); a page shorter
than 50 items ends it; otherwise the next page is requested. -/
def fetchLoopAux (cfg : Config) (oracle : RequestParams → PageResp)
    (rawSeed query since untl : String) : Nat → Nat → FetchOut
  | _, 0 => ⟨[], [], []⟩
  | page, rem + 1 =>
    match fetchPage cfg oracle query since untl page with
    | (reqs, .error e) => ⟨[], [fetchErrLine rawSeed page e], reqs⟩
    | (reqs, .ok items) =>
      if items.length < 50 then ⟨items, [], reqs⟩
      else
        let rest := fetchLoopAux cfg oracle rawSeed query since untl (page + 1) rem
        ⟨items ++ rest.items, rest.diag, reqs ++ rest.reqs⟩

/-- The page loop: pages `1 .. cfg.pages`. -/
def fetchLoop (cfg : Config) (oracle : RequestParams → PageResp)
    (rawSeed query since untl : String) : FetchOut :=
  fetchLoopAux cfg oracle rawSeed query since untl 1 cfg.pages

/-- The normalize-and-view-filter loop: falsy coercions count as
malformed; survivors must meet the view threshold.  Returns the
surviving dicts (in order) and the malformed count. -/
def normFilter (minViews : Int) : List RawItem → List Dict × Nat
  | [] => ([], 0)
  | it :: rest =>
    let (ns, mf) := normFilter minViews rest
    let d := asDict it
    if d.isEmpty then (ns, mf + 1)
    else if minViews ≤ viewsOf d then (d :: ns, mf) else (ns, mf)

/-- The local acceptance decision for one candidate body (`ok` in the
code): strict mode checks the boundary phrase on a non-empty body and
falls back to the trust flag on an empty one; non-strict mode keeps the
initial `True`. -/
def accepts (cfg : Config) (rawSeed body : String) : Bool :=
  if cfg.requireExact then
    if body ≠ "" then containsExactPhraseWordBoundary cfg.nfkcLower rawSeed body
    else cfg.trustQuery
  else true

/-- The acceptance decision on a whole candidate dict: its computed
body is accepted (`false` when computing the body would raise — that
case never coexists with a returned result). -/
def acceptsD (cfg : Config) (rawSeed : String) (d : Dict) : Bool :=
  match bodyFromItem d with
  | .ok b => accepts cfg rawSeed b
  | .error _ => false

/-- The in-place tagging of an accepted candidate:
`d["_seed"] = raw_seed; d["_link"] = _link_of(d)`. -/
def mutate (rawSeed : String) (d : Dict) : Dict :=
  let d1 := dset d "_seed" (.vStr rawSeed)
  dset d1 "_link" (linkOf d1)

/-- The matching loop over the view-filter survivors; computing a body
can raise (truthy non-string field), which aborts the whole search. -/
def matchLoop (cfg : Config) (rawSeed : String) : List Dict → Except String (List Dict)
  | [] => .ok []
  | d :: rest =>
    match bodyFromItem d with
    | .error e => .error e
    | .ok body =>
      match matchLoop cfg rawSeed rest with
      | .error e => .error e
      | .ok tl => if accepts cfg rawSeed body then .ok (mutate rawSeed d :: tl) else .ok tl

/-- Per-seed yield: accepted records, diagnostic lines, and the
view-filter survivor count (`filtered_by_views`). -/
structure SeedOut where
  matched : List Dict
  diag : List String
  candidates : Nat
deriving DecidableEq

/-- One iteration of the seed loop, also reporting the requests it
issued (issued requests survive a later raise). -/
def processSeed (cfg : Config) (oracle : RequestParams → PageResp)
    (since untl rawSeed : String) : Except String SeedOut × List RequestParams :=
  let q := normalizeSeed cfg rawSeed
  let fo := fetchLoop cfg oracle rawSeed q since untl
  let nf := normFilter cfg.minViews fo.items
  match matchLoop cfg rawSeed nf.1 with
  | .error e => (.error e, fo.reqs)
  | .ok ms =>
    (.ok ⟨ms, fo.diag ++ [seedSummaryLine rawSeed fo.items.length nf.2 nf.1.length ms.length],
          nf.1.length⟩, fo.reqs)

/-- The seed loop: accumulates matches, diagnostic lines and the
candidate total across seeds; a raised exception stops the loop but the
requests issued so far are still reported. -/
def runSeeds (cfg : Config) (oracle : RequestParams → PageResp) (since untl : String) :
    List String → Except String (List Dict × List String × Nat) × List RequestParams
  | [] => (.ok ([], [], 0), [])
  | s :: rest =>
    match processSeed cfg oracle since untl s with
    | (.error e, reqs) => (.error e, reqs)
    | (.ok so, reqs) =>
      match runSeeds cfg oracle since untl rest with
      | (.error e, reqs2) => (.error e, reqs ++ reqs2)
      | (.ok (ms, dls, tc), reqs2) =>
        (.ok (so.matched ++ ms, so.diag ++ dls, so.candidates + tc), reqs ++ reqs2)

/-- `on`/`off` rendering of a policy toggle. -/
def onOff (b : Bool) : String := if b then "on" else "off"

/-- The leading policy-summary diagnostic line. -/
def policyLine (cfg : Config) : String :=
  "Telemetr diag: strict=" ++ onOff cfg.requireExact ++ ", quotes=" ++ onOff cfg.useQuotes ++
  ", trust_no_text=" ++ onOff cfg.trustQuery ++ ", min_views=" ++ toString cfg.minViews ++
  ", pages=" ++ toString cfg.pages ++ ", date_to_inclusive=" ++ onOff cfg.dateToInclusive

/-- One `sample_links` bullet for a matched record, if its link chain is
truthy. -/
def sampleLinkLine (d : Dict) : Option String :=
  let link := pyOr (pyOr (pyOr (pyOr (dgetV d "_link") (dgetV d "display_url"))
    (dgetV d "url")) (dgetV d "link")) (.vStr "")
  if link.truthy then
    let seedTag := pyOr (dgetV d "_seed") (.vStr "")
    some ("- " ++ link.str ++ "  (seed: " ++ seedTag.str ++ ")")
  else none

/-- The optional `sample_links` diagnostic block (`ORGANIC_DEBUG`). -/
def debugLines (cfg : Config) (matched : List Dict) : List String :=
  if cfg.organicDebug ∧ ¬ matched.isEmpty then
    let sample := (matched.take 10).filterMap sampleLinkLine
    if sample.isEmpty then [] else ["sample_links:\n" ++ joinNl sample]
  else []

/-- The trimmed, non-empty seeds (`seeds_raw`). -/
def seedsRawOf (seeds : List String) : List String :=
  (seeds.map pyStrip).filter (fun s => s ≠ "")

/-- The observable outcome of one `search_telemetr` call: either the
returned `(matches, diagnostics)` pair or an escaped exception, plus the
trace of page requests issued to the provider. -/
structure SearchOutcome where
  result : Except String (List Dict × String)
  requests : List RequestParams

/-- `search_telemetr`: the whole pipeline. -/
def searchTelemetr (cfg : Config) (oracle : RequestParams → PageResp)
    (seeds : List String) (since untl : String) : SearchOutcome :=
  let seedsRaw := seedsRawOf seeds
  if seedsRaw.isEmpty then ⟨.ok ([], "Telemetr: нет фраз для поиска"), []⟩
  else
    match runSeeds cfg oracle since untl seedsRaw with
    | (.error e, reqs) => ⟨.error e, reqs⟩
    | (.ok (matched, seedDiags, totalCand), reqs) =>
      let diag := policyLine cfg :: seedDiags ++
        ["total_candidates=" ++ toString totalCand ++ ", total_matched=" ++ toString matched.length] ++
        debugLines cfg matched
      ⟨.ok (matched, joinNl diag), reqs⟩

/-- Whether the call escaped with an exception. -/
def SearchOutcome.raised (o : SearchOutcome) : Bool :=
  match o.result with
  | .error _ => true
  | .ok _ => false

/-- The returned matches (empty when the call raised). -/
def SearchOutcome.matches (o : SearchOutcome) : List Dict :=
  match o.result with
  | .ok (m, _) => m
  | .error _ => []

/-- The returned diagnostics text (empty when the call raised). -/
def SearchOutcome.diagText (o : SearchOutcome) : String :=
  match o.result with
  | .ok (_, d) => d
  | .error _ => ""

/-- The accepted records of one seed (empty when its processing raised). -/
def seedMatches (cfg : Config) (oracle : RequestParams → PageResp)
    (since untl s : String) : List Dict :=
  match (processSeed cfg oracle since untl s).1 with
  | .ok so => so.matched
  | .error _ => []

/-- The page-loop output for one seed. -/
def seedFetch (cfg : Config) (oracle : RequestParams → PageResp)
    (since untl s : String) : FetchOut :=
  fetchLoop cfg oracle s (normalizeSeed cfg s) since untl

/-- The view-filter survivors for one seed. -/
def seedCandidates (cfg : Config) (oracle : RequestParams → PageResp)
    (since untl s : String) : List Dict :=
  (normFilter cfg.minViews (seedFetch cfg oracle since untl s).items).1

/-- The raw items fetched for one seed. -/
def seedItems (cfg : Config) (oracle : RequestParams → PageResp)
    (since untl s : String) : List RawItem :=
  (seedFetch cfg oracle since untl s).items

/-- The string value of an `Except`, defaulting to `""` on error. -/
def okStr (e : Except String String) : String :=
  match e with
  | .ok s => s
  | .error _ => ""

/-- A page response reporting a full page: a success envelope with at
least the page size (50) of items.  Anything else ends pagination. -/
def fullPage : PageResp → Bool
  | .ok items => 50 ≤ items.length
  | _ => false

/-- How many pages the loop attempts from `page` with `rem` iterations
left, given which pages end pagination. -/
def attemptsF (stop : Nat → Bool) : Nat → Nat → Nat
  | _, 0 => 0
  | page, rem + 1 => if stop page then 1 else 1 + attemptsF stop (page + 1) rem

/-- The page at which the loop for a given seed would end, as a stopping
predicate on page numbers. -/
def stopsAt (cfg : Config) (oracle : RequestParams → PageResp)
    (query since untl : String) (page : Nat) : Bool :=
  ¬ fullPage (oracle (buildParams cfg query since untl page))

/-! ### Definitions following the specification's words

The next definitions do not embed code from the repository: they state,
in the specification's own terms, notions the specification attributes
to the pipeline, so that claims about them can be compared with what the
code actually computes. -/

/-- Modelled from the spec: the Deduplicator component (spec §4.6) has
no counterpart in the code; its dedup key — the record's link when
non-empty, else a bounded-length prefix of the normalized body — is
defined here from the specification's words (`bound` is the unspecified
prefix length). -/
def specDedupKey (f : String → String) (bound : Nat) (d : Dict) : String :=
  let link := (linkOf d).str
  if link ≠ "" then link
  else ⟨(normBasic f (okStr (bodyFromItem d))).data.take bound⟩

/-- Modelled from the spec: the whitespace tokens of a normalized text,
for the fuzzy token-overlap ratio the specification describes (§4.5);
the code has no fuzzy mode. -/
def specTokens (f : String → String) (s : String) : List (List Char) :=
  splitWsL (normBasic f s).data

/-- Modelled from the spec: the number of seed tokens also present in
the body's token set. -/
def specOverlapCount (f : String → String) (seed body : String) : Nat :=
  ((specTokens f seed).filter (fun t => t ∈ specTokens f body)).length

/-- Modelled from the spec: the token-overlap ratio (seed tokens found
in the body over seed token count). -/
def specOverlapRatio (f : String → String) (seed body : String) : ℚ :=
  let k := (specTokens f seed).length
  if k = 0 then 0 else (specOverlapCount f seed body : ℚ) / (k : ℚ)

/-- Modelled from the spec: `views` as the claim reads it — the first
*parseable* integer among the `views` and `views_count` fields,
defaulting to `0`. -/
def specFirstParseableViews (d : Dict) : Int :=
  match intOfPy (dgetV d "views") with
  | some n => n
  | none =>
    match intOfPy (dgetV d "views_count") with
    | some n => n
    | none => 0

/-- The first truthy value among the `views` and `views_count` fields,
used to state what the code actually computes. -/
def firstTruthyViews (d : Dict) : Option PyVal :=
  if (dgetV d "views").truthy then some (dgetV d "views")
  else if (dgetV d "views_count").truthy then some (dgetV d "views_count")
  else none

/-! ### Concrete fixtures for witnesses and counterexamples -/

/-- A configuration with every toggle at its environment default
(strict matching on, quotes on, trust off, threshold 0, three pages) and
a present credential; the Unicode step is instantiated with the identity,
which is its restriction to the lowercase ASCII texts used below. -/
def cfgStrict : Config :=
  { token := "token-1", useQuotes := true, requireExact := true, trustQuery := false,
    minViews := 0, pages := 3, dateToInclusive := false, organicDebug := false,
    nfkcLower := id }

/-- `cfgStrict` with strict matching disabled. -/
def cfgLoose : Config :=
  { cfgStrict with requireExact := false }

/-- `cfgStrict` with the trust-on-empty-body flag enabled. -/
def cfgTrust : Config :=
  { cfgStrict with trustQuery := true }

/-- `cfgStrict` without a credential. -/
def cfgNoToken : Config :=
  { cfgStrict with token := "" }

/-- A post carrying a link, matched below by two different seeds. -/
def itemShared : RawItem :=
  .dict [("text", .vStr "the market report today"), ("link", .vStr "https://t.me/c/1")]

/-- An oracle returning the same single short page for every request. -/
def orcShared : RequestParams → PageResp := fun _ => .ok [itemShared]

/-- A mapping item with no textual fields (empty body). -/
def itemNoText : Dict := [("views", .vInt 7), ("url", .vStr "https://t.me/c/2")]

/-- An oracle returning one empty-body item. -/
def orcNoText : RequestParams → PageResp := fun _ => .ok [.dict itemNoText]

/-- An oracle returning one empty-body item and one matching item. -/
def orcMixed : RequestParams → PageResp :=
  fun _ => .ok [.dict itemNoText, itemShared]

/-- An unrelated-body item: no seed token occurs in it. -/
def itemUnrelated : Dict := [("text", .vStr "hello")]

/-- An oracle returning the unrelated-body item. -/
def orcUnrelated : RequestParams → PageResp := fun _ => .ok [.dict itemUnrelated]

/-- An oracle whose first page is full (50 copies) and second page short. -/
def orcTwoPages : RequestParams → PageResp :=
  fun p => if p.page = 1 then .ok (List.replicate 50 itemShared)
    else .ok [itemShared]

/-- A mapping whose `views` is a truthy unparseable string while
`views_count` parses. -/
def itemBadViews : Dict := [("views", .vStr "abc"), ("views_count", .vStr "5")]

/-- A mapping whose `views` is the parseable integer `0` while
`views_count` is `7`. -/
def itemZeroViews : Dict := [("views", .vInt 0), ("views_count", .vInt 7)]

/-! ## Helper lemmas -/

theorem dget_dset_same (d : Dict) (k : String) (v : PyVal) :
    dget (dset d k v) k = some v := by
  induction d with
  | nil => simp [dget, dset]
  | cons hd tl ih =>
    obtain ⟨k0, v0⟩ := hd
    by_cases h : k0 = k
    · simp [dget, dset, h]
    · simp [dget, dset, h, ih]

theorem dget_dset_other (d : Dict) (k k2 : String) (v : PyVal) (h : k2 ≠ k) :
    dget (dset d k v) k2 = dget d k2 := by
  induction d with
  | nil => simp [dget, dset, Ne.symm h]
  | cons hd tl ih =>
    obtain ⟨k0, v0⟩ := hd
    by_cases h0 : k0 = k
    · subst h0
      simp [dget, dset, Ne.symm h]
    · by_cases h2 : k0 = k2
      · subst h2
        simp [dget, dset, h0]
      · simp [dget, dset, h0, h2, ih]

theorem dget_dset_isSome (d : Dict) (k k2 : String) (v : PyVal)
    (h : (dget (dset d k v) k2).isSome) : k2 = k ∨ (dget d k2).isSome := by
  by_cases hk : k2 = k
  · exact Or.inl hk
  · right
    rwa [dget_dset_other d k k2 v hk] at h

theorem linkOf_dset_seed (d : Dict) (v : PyVal) :
    linkOf (dset d "_seed" v) = linkOf d := by
  simp [linkOf, dgetV, dget_dset_other d "_seed" "display_url" v (by decide),
    dget_dset_other d "_seed" "url" v (by decide),
    dget_dset_other d "_seed" "link" v (by decide)]

theorem mutate_eq (s : String) (d : Dict) :
    mutate s d = dset (dset d "_seed" (.vStr s)) "_link" (linkOf d) := by
  simp [mutate, linkOf_dset_seed]

theorem dget_mutate_other (s : String) (d : Dict) (k : String)
    (h1 : k ≠ "_seed") (h2 : k ≠ "_link") : dget (mutate s d) k = dget d k := by
  rw [mutate_eq, dget_dset_other _ _ _ _ h2, dget_dset_other _ _ _ _ h1]

theorem dget_mutate_seed (s : String) (d : Dict) :
    dget (mutate s d) "_seed" = some (.vStr s) := by
  rw [mutate_eq, dget_dset_other _ _ _ _ (by decide), dget_dset_same]

theorem dget_mutate_link (s : String) (d : Dict) :
    dget (mutate s d) "_link" = some (linkOf d) := by
  rw [mutate_eq, dget_dset_same]

theorem bodyFromItem_mutate (s : String) (d : Dict) :
    bodyFromItem (mutate s d) = bodyFromItem d := by
  simp [bodyFromItem, fieldVal, dgetV,
    dget_mutate_other s d "title" (by decide) (by decide),
    dget_mutate_other s d "text" (by decide) (by decide),
    dget_mutate_other s d "caption" (by decide) (by decide)]

theorem matchLoop_ok (cfg : Config) (s : String) :
    ∀ (ds : List Dict) (ms : List Dict), matchLoop cfg s ds = .ok ms →
      ms = (ds.filter (acceptsD cfg s)).map (mutate s) ∧
      ∀ d ∈ ds, ∃ b, bodyFromItem d = .ok b := by
  intro ds
  induction ds with
  | nil =>
    intro ms h
    simp only [matchLoop, Except.ok.injEq] at h
    subst h
    simp
  | cons d rest ih =>
    intro ms h
    simp only [matchLoop] at h
    cases hb : bodyFromItem d with
    | error e =>
      rw [hb] at h
      exact absurd h (by simp)
    | ok b =>
      rw [hb] at h
      cases hr : matchLoop cfg s rest with
      | error e =>
        rw [hr] at h
        exact absurd h (by simp)
      | ok tl =>
        rw [hr] at h
        dsimp only at h
        obtain ⟨htl, hall⟩ := ih tl hr
        by_cases ha : accepts cfg s b = true
        · rw [if_pos ha] at h
          injection h with h
          constructor
          · rw [← h, List.filter_cons, htl]
            have hd : acceptsD cfg s d = true := by simp [acceptsD, hb, ha]
            simp [hd]
          · intro x hx
            rcases List.mem_cons.mp hx with hx | hx
            · exact ⟨b, by rw [hx]; exact hb⟩
            · exact hall x hx
        · rw [if_neg ha] at h
          injection h with h
          constructor
          · rw [← h, List.filter_cons, htl]
            have hd : acceptsD cfg s d = false := by
              simp [acceptsD, hb, Bool.of_not_eq_true ha]
            simp [hd]
          · intro x hx
            rcases List.mem_cons.mp hx with hx | hx
            · exact ⟨b, by rw [hx]; exact hb⟩
            · exact hall x hx

theorem normFilter_eq (minViews : Int) :
    ∀ items : List RawItem,
      normFilter minViews items =
        (((items.map asDict).filter
            (fun d => !d.isEmpty && decide (minViews ≤ viewsOf d))),
         ((items.map asDict).filter (fun d => d.isEmpty)).length) := by
  intro items
  induction items with
  | nil => simp [normFilter]
  | cons it rest ih =>
    simp only [normFilter, ih, List.map_cons, List.filter_cons]
    by_cases he : (asDict it).isEmpty
    · simp [he]
    · by_cases hv : minViews ≤ viewsOf (asDict it)
      · simp [he, hv]
      · simp [he, hv]

theorem mem_normFilter (minViews : Int) (items : List RawItem) (d : Dict)
    (h : d ∈ (normFilter minViews items).1) :
    ∃ it ∈ items, d = asDict it ∧ (asDict it).isEmpty = false ∧ minViews ≤ viewsOf d := by
  rw [normFilter_eq] at h
  simp only [List.mem_filter, List.mem_map, Bool.and_eq_true, Bool.not_eq_true',
    decide_eq_true_eq] at h
  obtain ⟨⟨it, hit, rfl⟩, he, hv⟩ := h
  exact ⟨it, hit, rfl, he, hv⟩

theorem processSeed_snd (cfg : Config) (oracle : RequestParams → PageResp)
    (since untl s : String) :
    (processSeed cfg oracle since untl s).2 = (seedFetch cfg oracle since untl s).reqs := by
  simp only [processSeed, seedFetch]
  split <;> rfl

theorem processSeed_ok_matchLoop (cfg : Config) (oracle : RequestParams → PageResp)
    (since untl s : String) (so : SeedOut)
    (h : (processSeed cfg oracle since untl s).1 = .ok so) :
    matchLoop cfg s (seedCandidates cfg oracle since untl s) = .ok so.matched := by
  simp only [processSeed] at h
  revert h
  cases hm : matchLoop cfg s
      (normFilter cfg.minViews
        (fetchLoop cfg oracle s (normalizeSeed cfg s) since untl).items).1 with
  | error e => intro h; exact absurd h (by simp)
  | ok ms =>
    intro h
    injection h with h
    rw [← h]
    exact hm

theorem seedMatches_of_ok (cfg : Config) (oracle : RequestParams → PageResp)
    (since untl s : String) (so : SeedOut)
    (h : (processSeed cfg oracle since untl s).1 = .ok so) :
    seedMatches cfg oracle since untl s = so.matched := by
  simp [seedMatches, h]

theorem runSeeds_ok (cfg : Config) (oracle : RequestParams → PageResp) (since untl : String) :
    ∀ (ss : List String) (m : List Dict) (dl : List String) (tc : Nat),
      (runSeeds cfg oracle since untl ss).1 = .ok (m, dl, tc) →
      m = (ss.map (seedMatches cfg oracle since untl)).flatten ∧
      (runSeeds cfg oracle since untl ss).2 =
        (ss.map (fun s => (processSeed cfg oracle since untl s).2)).flatten ∧
      ∀ s ∈ ss, ∃ so, (processSeed cfg oracle since untl s).1 = .ok so := by
  intro ss
  induction ss with
  | nil =>
    intro m dl tc h
    simp only [runSeeds, Except.ok.injEq, Prod.mk.injEq] at h
    simp [h.1.symm, runSeeds]
  | cons s rest ih =>
    intro m dl tc h
    simp only [runSeeds] at h ⊢
    cases hps : processSeed cfg oracle since untl s with
    | mk res reqs =>
      cases res with
      | error e => simp [hps] at h
      | ok so =>
        cases hrs : runSeeds cfg oracle since untl rest with
        | mk res2 reqs2 =>
          cases res2 with
          | error e => simp [hps, hrs] at h
          | ok t =>
            obtain ⟨ms, dls, tcs⟩ := t
            rw [hps, hrs] at h
            simp only [Except.ok.injEq, Prod.mk.injEq] at h
            obtain ⟨hm, -, -⟩ := h
            have hr := ih ms dls tcs (by rw [hrs])
            obtain ⟨hjm, hjr, hall⟩ := hr
            have hsm : seedMatches cfg oracle since untl s = so.matched := by
              simp [seedMatches, hps]
            refine ⟨?_, ?_, ?_⟩
            · simp only [List.map_cons, List.flatten, hsm, ← hjm, hm]
            · have hreq : (processSeed cfg oracle since untl s).2 = reqs := by rw [hps]
              have hreq2 : (runSeeds cfg oracle since untl rest).2 = reqs2 := by rw [hrs]
              dsimp only
              simp only [List.map_cons, List.flatten, hreq, ← hjr, hreq2]
            · intro x hx
              rcases List.mem_cons.mp hx with hx | hx
              · exact ⟨so, by rw [hx, hps]⟩
              · exact hall x hx


theorem searchTelemetr_ok (cfg : Config) (oracle : RequestParams → PageResp)
    (seeds : List String) (since untl : String) (m : List Dict) (dg : String)
    (h : (searchTelemetr cfg oracle seeds since untl).result = .ok (m, dg)) :
    m = ((seedsRawOf seeds).map (seedMatches cfg oracle since untl)).flatten ∧
    (searchTelemetr cfg oracle seeds since untl).requests =
      ((seedsRawOf seeds).map (fun s => (processSeed cfg oracle since untl s).2)).flatten ∧
    ∀ s ∈ seedsRawOf seeds, ∃ so, (processSeed cfg oracle since untl s).1 = .ok so := by
  by_cases he : (seedsRawOf seeds).isEmpty
  · have hnil : seedsRawOf seeds = [] := List.isEmpty_iff.mp he
    simp only [searchTelemetr, hnil, List.isEmpty_nil, if_true] at h ⊢
    injection h with h
    obtain ⟨h1, -⟩ := Prod.mk.injEq .. ▸ h
    simp [← h1]
  · simp only [searchTelemetr, he, if_false] at h ⊢
    cases hrs : runSeeds cfg oracle since untl (seedsRawOf seeds) with
    | mk res reqs =>
      cases res with
      | error e => simp [hrs] at h
      | ok t =>
        obtain ⟨matched, seedDiags, totalCand⟩ := t
        rw [hrs] at h
        simp only [Bool.false_eq_true, if_false] at h ⊢
        injection h with h
        obtain ⟨hm, -⟩ := Prod.mk.injEq .. ▸ h
        obtain ⟨h1, h2, h3⟩ :=
          runSeeds_ok cfg oracle since untl (seedsRawOf seeds) matched seedDiags totalCand
            (by rw [hrs])
        have hq : reqs = (runSeeds cfg oracle since untl (seedsRawOf seeds)).2 := by rw [hrs]
        refine ⟨?_, ?_, h3⟩
        · rw [← hm]
          exact h1
        · rw [hq]
          exact h2

theorem matches_of_ok (cfg : Config) (oracle : RequestParams → PageResp)
    (seeds : List String) (since untl : String) (m : List Dict) (dg : String)
    (h : (searchTelemetr cfg oracle seeds since untl).result = .ok (m, dg)) :
    (searchTelemetr cfg oracle seeds since untl).matches = m := by
  simp [SearchOutcome.matches, h]

theorem mem_fetchLoopAux_reqs (cfg : Config) (oracle : RequestParams → PageResp)
    (rs q since untl : String) :
    ∀ (rem page : Nat) (p : RequestParams),
      p ∈ (fetchLoopAux cfg oracle rs q since untl page rem).reqs →
      ∃ pg, p = buildParams cfg q since untl pg := by
  intro rem
  induction rem with
  | zero =>
    intro page p hp
    simp [fetchLoopAux] at hp
  | succ n ih =>
    intro page p hp
    simp only [fetchLoopAux, fetchPage] at hp
    by_cases ht : cfg.token = ""
    · simp [ht] at hp
    · simp only [ht, if_false] at hp
      cases ho : oracle (buildParams cfg q since untl page) with
      | raise msg =>
        rw [ho] at hp
        simp at hp
        exact ⟨page, hp⟩
      | notOk =>
        rw [ho] at hp
        simp at hp
        exact ⟨page, hp⟩
      | ok items =>
        rw [ho] at hp
        by_cases hlen : items.length < 50
        · simp [hlen] at hp
          exact ⟨page, hp⟩
        · simp only [hlen, if_false] at hp
          rcases List.mem_append.mp hp with hp | hp
          · simp at hp
            exact ⟨page, hp⟩
          · exact ih (page + 1) p hp

theorem fetchLoopAux_reqs_eq (cfg : Config) (oracle : RequestParams → PageResp)
    (rs q since untl : String) (htok : ¬ cfg.token = "") :
    ∀ (rem page : Nat),
      (fetchLoopAux cfg oracle rs q since untl page rem).reqs =
        (List.range' page (attemptsF (stopsAt cfg oracle q since untl) page rem)).map
          (buildParams cfg q since untl) := by
  intro rem
  induction rem with
  | zero => intro page; simp [fetchLoopAux, attemptsF]
  | succ n ih =>
    intro page
    simp only [fetchLoopAux, fetchPage, htok, if_false, attemptsF]
    cases ho : oracle (buildParams cfg q since untl page) with
    | raise msg =>
      have hstop : stopsAt cfg oracle q since untl page = true := by
        simp [stopsAt, ho, fullPage]
      simp [hstop, List.range']
    | notOk =>
      have hstop : stopsAt cfg oracle q since untl page = true := by
        simp [stopsAt, ho, fullPage]
      simp [hstop, List.range']
    | ok items =>
      by_cases hlen : items.length < 50
      · have hstop : stopsAt cfg oracle q since untl page = true := by
          simp only [stopsAt, ho, fullPage]
          simp
          omega
        simp [hlen, hstop, List.range']
      · have hstop : stopsAt cfg oracle q since untl page = false := by
          simp [stopsAt, ho, fullPage]
          omega
        simp only [hlen, if_false, hstop, Bool.false_eq_true, List.range'_succ, List.map_cons]
        rw [ih (page + 1),
          Nat.add_comm 1 (attemptsF (stopsAt cfg oracle q since untl) (page + 1) n),
          List.range'_succ, List.map_cons]
        simp

theorem attemptsF_le (stop : Nat → Bool) :
    ∀ (rem page : Nat), attemptsF stop page rem ≤ rem := by
  intro rem
  induction rem with
  | zero => intro page; simp [attemptsF]
  | succ n ih =>
    intro page
    simp only [attemptsF]
    by_cases h : stop page
    · simp [h]
    · simp only [h, Bool.false_eq_true, if_false]
      have := ih (page + 1)
      omega

theorem attemptsF_earlier (stop : Nat → Bool) :
    ∀ (rem page j : Nat), page ≤ j → j + 1 < page + attemptsF stop page rem →
      stop j = false := by
  intro rem
  induction rem with
  | zero =>
    intro page j h1 h2
    simp [attemptsF] at h2
    omega
  | succ n ih =>
    intro page j h1 h2
    simp only [attemptsF] at h2
    by_cases h : stop page
    · rw [if_pos h] at h2
      omega
    · rw [if_neg h] at h2
      by_cases hj : j = page
      · rw [hj]
        exact Bool.of_not_eq_true h
      · exact ih (page + 1) j (by omega) (by omega)

theorem attemptsF_last (stop : Nat → Bool) :
    ∀ (rem page : Nat), attemptsF stop page rem = rem ∨
      (1 ≤ attemptsF stop page rem ∧
        stop (page + attemptsF stop page rem - 1) = true) := by
  intro rem
  induction rem with
  | zero => intro page; simp [attemptsF]
  | succ n ih =>
    intro page
    simp only [attemptsF]
    by_cases h : stop page
    · right
      simp [h]
    · rw [if_neg h]
      rcases ih (page + 1) with hr | ⟨hr1, hr2⟩
      · left
        omega
      · right
        refine ⟨by omega, ?_⟩
        have : page + (1 + attemptsF stop (page + 1) n) - 1 =
            page + 1 + attemptsF stop (page + 1) n - 1 := by omega
        rw [this]
        exact hr2

theorem mem_runSeeds_reqs (cfg : Config) (oracle : RequestParams → PageResp)
    (since untl : String) :
    ∀ (ss : List String) (p : RequestParams),
      p ∈ (runSeeds cfg oracle since untl ss).2 →
      ∃ s ∈ ss, p ∈ (processSeed cfg oracle since untl s).2 := by
  intro ss
  induction ss with
  | nil => intro p hp; simp [runSeeds] at hp
  | cons s rest ih =>
    intro p hp
    simp only [runSeeds] at hp
    cases hps : processSeed cfg oracle since untl s with
    | mk res reqs =>
      rw [hps] at hp
      have hmem : p ∈ reqs → ∃ x ∈ s :: rest, p ∈ (processSeed cfg oracle since untl x).2 := by
        intro hin
        exact ⟨s, List.mem_cons_self s rest, by rw [hps]; exact hin⟩
      cases res with
      | error e =>
        dsimp only at hp
        exact hmem hp
      | ok so =>
        cases hrs : runSeeds cfg oracle since untl rest with
        | mk res2 reqs2 =>
          rw [hrs] at hp
          have hmem2 : p ∈ reqs2 →
              ∃ x ∈ s :: rest, p ∈ (processSeed cfg oracle since untl x).2 := by
            intro hin
            obtain ⟨x, hx, hpx⟩ := ih p (by rw [hrs]; exact hin)
            exact ⟨x, List.mem_cons_of_mem s hx, hpx⟩
          cases res2 with
          | error e =>
            dsimp only at hp
            rcases List.mem_append.mp hp with hp | hp
            · exact hmem hp
            · exact hmem2 hp
          | ok t =>
            obtain ⟨ms, dls, tcs⟩ := t
            dsimp only at hp
            rcases List.mem_append.mp hp with hp | hp
            · exact hmem hp
            · exact hmem2 hp

theorem mem_search_requests (cfg : Config) (oracle : RequestParams → PageResp)
    (seeds : List String) (since untl : String) (p : RequestParams)
    (hp : p ∈ (searchTelemetr cfg oracle seeds since untl).requests) :
    ∃ s ∈ seedsRawOf seeds, p ∈ (processSeed cfg oracle since untl s).2 := by
  by_cases he : (seedsRawOf seeds).isEmpty
  · have hnil : seedsRawOf seeds = [] := List.isEmpty_iff.mp he
    exfalso
    simp [searchTelemetr, hnil] at hp
  · simp only [searchTelemetr, he, if_false] at hp
    cases hrs : runSeeds cfg oracle since untl (seedsRawOf seeds) with
    | mk res reqs =>
      rw [hrs] at hp
      cases res with
      | error e =>
        dsimp only at hp
        exact mem_runSeeds_reqs cfg oracle since untl (seedsRawOf seeds) p
          (by rw [hrs]; exact hp)
      | ok t =>
        obtain ⟨ms, dls, tcs⟩ := t
        dsimp only at hp
        exact mem_runSeeds_reqs cfg oracle since untl (seedsRawOf seeds) p
          (by rw [hrs]; exact hp)

theorem fetchLoop_noToken (cfg : Config) (oracle : RequestParams → PageResp)
    (rs q since untl : String) (ht : cfg.token = "") (hpg : 1 ≤ cfg.pages) :
    fetchLoop cfg oracle rs q since untl = ⟨[], [fetchErrLine rs 1 tokenErrMsg], []⟩ := by
  obtain ⟨n, hn⟩ : ∃ n, cfg.pages = n + 1 :=
    ⟨cfg.pages - 1, by omega⟩
  simp [fetchLoop, hn, fetchLoopAux, fetchPage, ht]

theorem processSeed_noToken (cfg : Config) (oracle : RequestParams → PageResp)
    (since untl s : String) (ht : cfg.token = "") (hpg : 1 ≤ cfg.pages) :
    processSeed cfg oracle since untl s =
      (.ok ⟨[], [fetchErrLine s 1 tokenErrMsg, seedSummaryLine s 0 0 0 0], 0⟩, []) := by
  simp [processSeed, fetchLoop_noToken cfg oracle s (normalizeSeed cfg s) since untl ht hpg,
    normFilter, matchLoop]

theorem runSeeds_noToken (cfg : Config) (oracle : RequestParams → PageResp)
    (since untl : String) (ht : cfg.token = "") (hpg : 1 ≤ cfg.pages) :
    ∀ ss : List String,
      runSeeds cfg oracle since untl ss =
        (.ok ([],
          (ss.map (fun s => [fetchErrLine s 1 tokenErrMsg, seedSummaryLine s 0 0 0 0])).flatten,
          0), []) := by
  intro ss
  induction ss with
  | nil => simp [runSeeds]
  | cons s rest ih =>
    simp only [runSeeds, processSeed_noToken cfg oracle since untl s ht hpg, ih,
      List.map_cons, List.flatten]
    rfl

theorem dropWhile_self (p : Char → Bool) :
    ∀ l : List Char, (l.dropWhile p).dropWhile p = l.dropWhile p := by
  intro l
  induction l with
  | nil => simp
  | cons c cs ih =>
    by_cases h : p c
    · rw [List.dropWhile_cons_of_pos h]
      exact ih
    · rw [List.dropWhile_cons_of_neg h, List.dropWhile_cons_of_neg h]

theorem dropWhile_head_false (p : Char → Bool) :
    ∀ (l : List Char) (c : Char) (rest : List Char),
      l.dropWhile p = c :: rest → p c = false := by
  intro l
  induction l with
  | nil => intro c rest h; simp at h
  | cons a as ih =>
    intro c rest h
    by_cases ha : p a
    · rw [List.dropWhile_cons_of_pos ha] at h
      exact ih c rest h
    · rw [List.dropWhile_cons_of_neg ha] at h
      injection h with h1 h2
      rw [← h1]
      exact Bool.of_not_eq_true ha

theorem dropWhile_eq_self_of_head (p : Char → Bool) (l : List Char)
    (h : ∀ c rest, l = c :: rest → p c = false) : l.dropWhile p = l := by
  cases l with
  | nil => simp
  | cons c rest =>
    rw [List.dropWhile_cons_of_neg]
    simp [h c rest rfl]

theorem getLast?_dropWhile (p : Char → Bool) (l : List Char)
    (hne : l.dropWhile p ≠ []) : (l.dropWhile p).getLast? = l.getLast? := by
  conv_rhs => rw [← List.takeWhile_append_dropWhile (p := p) (l := l)]
  rw [List.getLast?_append_of_ne_nil _ hne]

theorem stripL_idem (l : List Char) : stripL (stripL l) = stripL l := by
  unfold stripL
  have h1 : ((l.dropWhile isPySpace).reverse.dropWhile isPySpace).reverse.dropWhile isPySpace =
      ((l.dropWhile isPySpace).reverse.dropWhile isPySpace).reverse := by
    apply dropWhile_eq_self_of_head
    intro c rest hc
    have hne : (l.dropWhile isPySpace).reverse.dropWhile isPySpace ≠ [] := by
      intro hnil
      rw [hnil] at hc
      simp at hc
    have hc2 : ((l.dropWhile isPySpace).reverse.dropWhile isPySpace).getLast? = some c := by
      rw [← List.head?_reverse, hc]
      rfl
    rw [getLast?_dropWhile _ _ hne, List.getLast?_reverse] at hc2
    cases hm : l.dropWhile isPySpace with
    | nil =>
      rw [hm] at hc2
      simp at hc2
    | cons e es =>
      rw [hm] at hc2
      simp only [List.head?_cons, Option.some.injEq] at hc2
      rw [← hc2]
      exact dropWhile_head_false isPySpace l e es hm
  rw [h1, List.reverse_reverse, dropWhile_self]

theorem bodyFromItem_ok (d : Dict) (t x c : String)
    (ht : stripField (fieldVal d "title") = .ok t)
    (hx : stripField (fieldVal d "text") = .ok x)
    (hc : stripField (fieldVal d "caption") = .ok c) :
    bodyFromItem d =
      .ok ⟨stripL (joinWith '\n'
        (([t, x, c].filter (fun s => s ≠ "")).map String.data))⟩ := by
  unfold bodyFromItem
  rw [ht, hx, hc]
  rfl

theorem bodyFromItem_str (s : String) :
    bodyFromItem (asDict (.str s)) = .ok (pyStrip s) := by
  by_cases hs : s = ""
  · subst hs
    rfl
  · have ht : stripField (fieldVal (asDict (.str s)) "title") = .ok "" := rfl
    have hc : stripField (fieldVal (asDict (.str s)) "caption") = .ok "" := rfl
    have hx : stripField (fieldVal (asDict (.str s)) "text") = .ok (pyStrip s) := by
      simp [fieldVal, asDict, dgetV, dget, pyOr, PyVal.truthy, stripField, hs]
    rw [bodyFromItem_ok _ _ _ _ ht hx hc]
    by_cases hps : pyStrip s = ""
    · simp [hps, joinWith]
      rfl
    · simp [hps, joinWith]
      rw [show (pyStrip s).data = stripL s.data from rfl, stripL_idem]
      rfl

theorem viewsOf_eq_firstTruthy (d : Dict) :
    viewsOf d =
      (match firstTruthyViews d with
        | some v => (intOfPy v).getD 0
        | none => 0) := by
  unfold viewsOf firstTruthyViews pyOr
  by_cases h1 : (dgetV d "views").truthy
  · simp only [h1, if_true]
    cases intOfPy (dgetV d "views") <;> simp
  · by_cases h2 : (dgetV d "views_count").truthy
    · simp only [h1, h2, Bool.false_eq_true, if_false, if_true]
      cases intOfPy (dgetV d "views_count") <;> simp
    · simp only [h1, h2, Bool.false_eq_true, if_false]
      simp [intOfPy]

theorem containsExact_ex (f : String → String) (a b : String)
    (h : containsExactPhraseWordBoundary f a b = true) :
    normBasic f a ≠ "" ∧ normBasic f b ≠ "" ∧
    ∃ i, occursBoundedAt (normBasic f a).data (normBasic f b).data i = true := by
  unfold containsExactPhraseWordBoundary at h
  by_cases hn : normBasic f a = "" ∨ normBasic f b = ""
  · rw [if_pos hn] at h
    exact absurd h (by simp)
  · rw [if_neg hn] at h
    push_neg at hn
    obtain ⟨i, -, hi⟩ := List.any_eq_true.mp h
    exact ⟨hn.1, hn.2, i, hi⟩

/-! ## Claims -/

/-- Claim C1 (counterexample): the code performs no deduplication, so a
post matching two distinct seeds appears twice in `matches` — here one
item with link `https://t.me/c/1` matches the seeds `aa` and `bb` (with
strict matching off) and yields two distinct records sharing the same
spec-side dedup key, contradicting "no two records in the returned
matches list share a dedup key". -/
theorem claim_C1_counterexample :
    (searchTelemetr cfgLoose orcShared ["aa", "bb"] "2025-10-01" "2025-10-05").matches.length = 2 ∧
    specDedupKey id 100
        ((searchTelemetr cfgLoose orcShared ["aa", "bb"] "2025-10-01" "2025-10-05").matches.getD 0 []) =
      specDedupKey id 100
        ((searchTelemetr cfgLoose orcShared ["aa", "bb"] "2025-10-01" "2025-10-05").matches.getD 1 []) ∧
    (searchTelemetr cfgLoose orcShared ["aa", "bb"] "2025-10-01" "2025-10-05").matches.getD 0 [] ≠
      (searchTelemetr cfgLoose orcShared ["aa", "bb"] "2025-10-01" "2025-10-05").matches.getD 1 [] :=
  ⟨by decide, by decide, by decide⟩

/-- Claim C1 (amended): `search_telemetr` applies no deduplication: the
returned `matches` list is exactly the concatenation, in seed order, of
each seed's accepted records in discovery order, and every record is
tagged (via `_seed`) with the seed of the segment it belongs to — so a
post matching two distinct seeds appears once per matching seed, each
occurrence tagged with its own seed. -/
theorem claim_C1_amended (cfg : Config) (oracle : RequestParams → PageResp)
    (seeds : List String) (since untl : String) (m : List Dict) (dg : String)
    (hok : (searchTelemetr cfg oracle seeds since untl).result = .ok (m, dg)) :
    m = ((seedsRawOf seeds).map (seedMatches cfg oracle since untl)).flatten ∧
    ∀ s ∈ seedsRawOf seeds, ∀ r ∈ seedMatches cfg oracle since untl s,
      dget r "_seed" = some (.vStr s) := by
  obtain ⟨hm, -, hall⟩ := searchTelemetr_ok cfg oracle seeds since untl m dg hok
  refine ⟨hm, ?_⟩
  intro s hs r hr
  obtain ⟨so, hso⟩ := hall s hs
  rw [seedMatches_of_ok cfg oracle since untl s so hso] at hr
  have hml := processSeed_ok_matchLoop cfg oracle since untl s so hso
  obtain ⟨hfm, -⟩ := matchLoop_ok cfg s _ _ hml
  rw [hfm] at hr
  obtain ⟨d, -, rfl⟩ := List.mem_map.mp hr
  exact dget_mutate_seed s d

/-- Witness for the amended claim C1, at a concrete two-seed run in
which the same post matches both seeds. -/
theorem claim_C1_amended_witness :
    (searchTelemetr cfgLoose orcShared ["aa", "bb"] "2025-10-01" "2025-10-05").matches =
      ((seedsRawOf ["aa", "bb"]).map
        (seedMatches cfgLoose orcShared "2025-10-01" "2025-10-05")).flatten ∧
    ∀ s ∈ seedsRawOf ["aa", "bb"],
      ∀ r ∈ seedMatches cfgLoose orcShared "2025-10-01" "2025-10-05" s,
        dget r "_seed" = some (.vStr s) :=
  claim_C1_amended cfgLoose orcShared ["aa", "bb"] "2025-10-01" "2025-10-05"
    (searchTelemetr cfgLoose orcShared ["aa", "bb"] "2025-10-01" "2025-10-05").matches
    (searchTelemetr cfgLoose orcShared ["aa", "bb"] "2025-10-01" "2025-10-05").diagText
    rfl

/-- Claim C2 (counterexample): with the credential missing and a
non-empty seed list, `search_telemetr` does not raise — the
`RuntimeError` from `_fetch_page` is caught by the per-page `except`
block — contradicting "search raises if and only if the credential is
missing". -/
theorem claim_C2_counterexample :
    cfgNoToken.token = "" ∧ (["hello"] : List String) ≠ [] ∧
    (searchTelemetr cfgNoToken orcShared ["hello"] "2025-01-01" "2025-01-02").raised = false :=
  ⟨rfl, by decide, rfl⟩

/-- Claim C2 (amended): a missing credential makes `_fetch_page` raise
before any request is issued, but `search_telemetr` catches that error
like any other per-page failure: it records one fetch-error line (plus
the seed summary) per seed in the diagnostics, issues no request, and
returns normally with an empty match list. -/
theorem claim_C2_amended (cfg : Config) (oracle : RequestParams → PageResp)
    (seeds : List String) (since untl : String)
    (ht : cfg.token = "") (hpg : 1 ≤ cfg.pages) :
    (searchTelemetr cfg oracle seeds since untl).raised = false ∧
    (searchTelemetr cfg oracle seeds since untl).matches = [] ∧
    (searchTelemetr cfg oracle seeds since untl).requests = [] ∧
    runSeeds cfg oracle since untl (seedsRawOf seeds) =
      (.ok ([], ((seedsRawOf seeds).map
        (fun s => [fetchErrLine s 1 tokenErrMsg, seedSummaryLine s 0 0 0 0])).flatten, 0), []) := by
  have hrs := runSeeds_noToken cfg oracle since untl ht hpg (seedsRawOf seeds)
  by_cases he : (seedsRawOf seeds).isEmpty
  · have hnil := List.isEmpty_iff.mp he
    refine ⟨?_, ?_, ?_, hrs⟩ <;>
      simp [searchTelemetr, hnil, SearchOutcome.raised, SearchOutcome.matches]
  · refine ⟨?_, ?_, ?_, hrs⟩ <;>
      simp [searchTelemetr, he, hrs, SearchOutcome.raised, SearchOutcome.matches]

/-- Witness for the amended claim C2, at a concrete credential-less
configuration with one seed. -/
theorem claim_C2_amended_witness :
    (searchTelemetr cfgNoToken orcShared ["hello"] "2025-01-01" "2025-01-02").raised = false ∧
    (searchTelemetr cfgNoToken orcShared ["hello"] "2025-01-01" "2025-01-02").matches = [] ∧
    (searchTelemetr cfgNoToken orcShared ["hello"] "2025-01-01" "2025-01-02").requests = [] ∧
    runSeeds cfgNoToken orcShared "2025-01-01" "2025-01-02" (seedsRawOf ["hello"]) =
      (.ok ([], ((seedsRawOf ["hello"]).map
        (fun s => [fetchErrLine s 1 tokenErrMsg, seedSummaryLine s 0 0 0 0])).flatten, 0), []) :=
  claim_C2_amended cfgNoToken orcShared ["hello"] "2025-01-01" "2025-01-02" rfl (by decide)

/-- Claim C3 (counterexample): with `require_exact` disabled the code
accepts a candidate whose body (`hello`) neither contains the seed
(`market report`) as a boundary substring nor shares a single token with
it (overlap ratio 0), contradicting "accepted if and only if the literal
check succeeds or the token-overlap ratio meets the threshold" for every
positive threshold; no fuzzy threshold exists in the code at all. -/
theorem claim_C3_counterexample :
    cfgLoose.requireExact = false ∧
    (searchTelemetr cfgLoose orcUnrelated ["market report"] "2025-10-01" "2025-10-05").matches =
      [mutate "market report" itemUnrelated] ∧
    containsExactPhraseWordBoundary cfgLoose.nfkcLower "market report" "hello" = false ∧
    specOverlapCount cfgLoose.nfkcLower "market report" "hello" = 0 ∧
    specOverlapRatio cfgLoose.nfkcLower "market report" "hello" = 0 :=
  ⟨rfl, by decide, by decide, by decide, by
    norm_num [specOverlapRatio, specOverlapCount]
    decide⟩

/-- Claim C3 (amended): when `require_exact` is disabled the matcher
performs no local check at all: every candidate that survived the view
filter is accepted, and `matches` is exactly the per-seed concatenation
of all survivors (tagged); there is no fuzzy token-overlap mode in the
code. -/
theorem claim_C3_amended (cfg : Config) (oracle : RequestParams → PageResp)
    (seeds : List String) (since untl : String) (m : List Dict) (dg : String)
    (hne : cfg.requireExact = false)
    (hok : (searchTelemetr cfg oracle seeds since untl).result = .ok (m, dg)) :
    m = ((seedsRawOf seeds).map
      (fun s => (seedCandidates cfg oracle since untl s).map (mutate s))).flatten := by
  obtain ⟨hm, -, hall⟩ := searchTelemetr_ok cfg oracle seeds since untl m dg hok
  rw [hm]
  congr 1
  apply List.map_congr_left
  intro s hs
  obtain ⟨so, hso⟩ := hall s hs
  rw [seedMatches_of_ok cfg oracle since untl s so hso]
  have hml := processSeed_ok_matchLoop cfg oracle since untl s so hso
  obtain ⟨hfm, hbodies⟩ := matchLoop_ok cfg s _ _ hml
  rw [hfm]
  congr 1
  apply List.filter_eq_self.mpr
  intro d hd
  obtain ⟨b, hb⟩ := hbodies d hd
  simp [acceptsD, hb, accepts, hne]

/-- Witness for the amended claim C3: with strict matching off, the
unrelated-body candidate is returned. -/
theorem claim_C3_amended_witness :
    (searchTelemetr cfgLoose orcUnrelated ["market report"] "2025-10-01" "2025-10-05").matches =
      ((seedsRawOf ["market report"]).map
        (fun s => (seedCandidates cfgLoose orcUnrelated "2025-10-01" "2025-10-05" s).map
          (mutate s))).flatten :=
  claim_C3_amended cfgLoose orcUnrelated ["market report"] "2025-10-01" "2025-10-05"
    (searchTelemetr cfgLoose orcUnrelated ["market report"] "2025-10-01" "2025-10-05").matches
    (searchTelemetr cfgLoose orcUnrelated ["market report"] "2025-10-01" "2025-10-05").diagText
    rfl rfl

/-- Claim C4 (counterexample): with `require_exact` disabled (and the
trust flag disabled too) an empty-body candidate is accepted anyway,
because the empty-body/trust decision is only taken inside the strict
branch — contradicting the unconditional "appears if and only if
`trust_query_on_empty_body` is enabled". -/
theorem claim_C4_counterexample :
    cfgLoose.trustQuery = false ∧
    bodyFromItem (asDict (.dict itemNoText)) = .ok "" ∧
    (searchTelemetr cfgLoose orcNoText ["x y"] "2025-10-01" "2025-10-05").matches =
      [mutate "x y" itemNoText] :=
  ⟨rfl, rfl, by decide⟩

/-- Claim C4 (amended): in strict mode (`require_exact` on), an
empty-body candidate that survived the view filter appears in `matches`
if and only if `trust_query_on_empty_body` is enabled: with the flag off
no returned record has an empty body, and with the flag on every
empty-body survivor is returned (tagged with its seed). -/
theorem claim_C4_amended (cfg : Config) (oracle : RequestParams → PageResp)
    (seeds : List String) (since untl : String) (m : List Dict) (dg : String)
    (hex : cfg.requireExact = true)
    (hok : (searchTelemetr cfg oracle seeds since untl).result = .ok (m, dg)) :
    (cfg.trustQuery = false → ∀ r ∈ m, bodyFromItem r ≠ .ok "") ∧
    (cfg.trustQuery = true → ∀ s ∈ seedsRawOf seeds,
      ∀ d ∈ seedCandidates cfg oracle since untl s,
        bodyFromItem d = .ok "" → mutate s d ∈ m) := by
  obtain ⟨hm, -, hall⟩ := searchTelemetr_ok cfg oracle seeds since untl m dg hok
  constructor
  · intro htr r hr hbody
    rw [hm] at hr
    obtain ⟨l, hl, hrl⟩ := List.mem_flatten.mp hr
    obtain ⟨s, hs, rfl⟩ := List.mem_map.mp hl
    obtain ⟨so, hso⟩ := hall s hs
    rw [seedMatches_of_ok cfg oracle since untl s so hso] at hrl
    have hml := processSeed_ok_matchLoop cfg oracle since untl s so hso
    obtain ⟨hfm, -⟩ := matchLoop_ok cfg s _ _ hml
    rw [hfm] at hrl
    obtain ⟨d, hd, rfl⟩ := List.mem_map.mp hrl
    have hdf := (List.mem_filter.mp hd).2
    rw [bodyFromItem_mutate] at hbody
    simp [acceptsD, hbody, accepts, hex, htr] at hdf
  · intro htr s hs d hd hbody
    obtain ⟨so, hso⟩ := hall s hs
    have hml := processSeed_ok_matchLoop cfg oracle since untl s so hso
    obtain ⟨hfm, -⟩ := matchLoop_ok cfg s _ _ hml
    rw [hm]
    apply List.mem_flatten.mpr
    refine ⟨seedMatches cfg oracle since untl s, List.mem_map_of_mem _ hs, ?_⟩
    rw [seedMatches_of_ok cfg oracle since untl s so hso, hfm]
    apply List.mem_map_of_mem
    apply List.mem_filter.mpr
    refine ⟨hd, ?_⟩
    simp [acceptsD, hbody, accepts, hex, htr]

/-- Witness for the amended claim C4: a strict, trust-off run whose
returned record (the one matching the seed) indeed has a non-empty
body. -/
theorem claim_C4_amended_witness :
    bodyFromItem (mutate "market report" (asDict itemShared)) ≠ .ok "" :=
  (claim_C4_amended cfgStrict orcMixed ["market report"] "2025-10-01" "2025-10-05"
      (searchTelemetr cfgStrict orcMixed ["market report"] "2025-10-01" "2025-10-05").matches
      (searchTelemetr cfgStrict orcMixed ["market report"] "2025-10-01" "2025-10-05").diagText
      rfl rfl).1 rfl
    (mutate "market report" (asDict itemShared)) (by decide)

/-- Claim C5 (counterexample): the code never swaps a reversed date
pair: called with `since = 2025-10-05` and `until = 2025-10-01`, the one
request issued carries `date_from = 2025-10-05` and
`date_to = 2025-10-01`, i.e. `date_from` strictly after `date_to` as
dates — contradicting "no request ever carries date_from greater than
date_to". -/
theorem claim_C5_counterexample :
    (searchTelemetr cfgStrict orcShared ["market report"] "2025-10-05" "2025-10-01").requests.length = 1 ∧
    ((searchTelemetr cfgStrict orcShared ["market report"] "2025-10-05" "2025-10-01").requests.getD 0
        (buildParams cfgStrict "" "" "" 0)).date_from = "2025-10-05" ∧
    ((searchTelemetr cfgStrict orcShared ["market report"] "2025-10-05" "2025-10-01").requests.getD 0
        (buildParams cfgStrict "" "" "" 0)).date_to = "2025-10-01" ∧
    isoKey "2025-10-01" = some 20251001 ∧ isoKey "2025-10-05" = some 20251005 ∧
    20251001 < 20251005 :=
  ⟨by decide, by decide, by decide, by decide, by decide, by decide⟩

/-- Claim C5 (amended): the dates are passed through to every issued
request exactly as given — `date_from` is the caller's `since` and
`date_to` is the caller's `until` (advanced one day when the
date-inclusive policy is set) — with no swap; the page size is the fixed
50 and the bearer credential is forwarded. -/
theorem claim_C5_amended (cfg : Config) (oracle : RequestParams → PageResp)
    (seeds : List String) (since untl : String) (p : RequestParams)
    (hp : p ∈ (searchTelemetr cfg oracle seeds since untl).requests) :
    p.date_from = since ∧
    p.date_to = (if cfg.dateToInclusive then plusOneDay untl else untl) ∧
    p.limit = 50 ∧ p.bearer = cfg.token := by
  obtain ⟨s, hs, hps⟩ := mem_search_requests cfg oracle seeds since untl p hp
  rw [processSeed_snd] at hps
  obtain ⟨pg, rfl⟩ :=
    mem_fetchLoopAux_reqs cfg oracle s (normalizeSeed cfg s) since untl cfg.pages 1 p hps
  exact ⟨rfl, rfl, rfl, rfl⟩

/-- Witness for the amended claim C5, at the reversed-dates run: the
issued request carries the dates exactly as supplied. -/
theorem claim_C5_amended_witness :
    ((searchTelemetr cfgStrict orcShared ["market report"] "2025-10-05" "2025-10-01").requests.getD 0
        (buildParams cfgStrict "" "" "" 0)).date_from = "2025-10-05" ∧
    ((searchTelemetr cfgStrict orcShared ["market report"] "2025-10-05" "2025-10-01").requests.getD 0
        (buildParams cfgStrict "" "" "" 0)).date_to = "2025-10-01" ∧
    ((searchTelemetr cfgStrict orcShared ["market report"] "2025-10-05" "2025-10-01").requests.getD 0
        (buildParams cfgStrict "" "" "" 0)).limit = 50 ∧
    ((searchTelemetr cfgStrict orcShared ["market report"] "2025-10-05" "2025-10-01").requests.getD 0
        (buildParams cfgStrict "" "" "" 0)).bearer = cfgStrict.token :=
  claim_C5_amended cfgStrict orcShared ["market report"] "2025-10-05" "2025-10-01"
    ((searchTelemetr cfgStrict orcShared ["market report"] "2025-10-05" "2025-10-01").requests.getD 0
      (buildParams cfgStrict "" "" "" 0))
    (by decide)

/-- Claim C6 (counterexample): `_views_of` takes the first *truthy*
value, not the first *parseable* one: with `views = "abc"` (truthy,
unparseable) and `views_count = "5"` the code yields 0 where the claim
says 5; and with `views = 0` (parseable but falsy) and `views_count = 7`
the code yields 7 where the claim says 0. -/
theorem claim_C6_counterexample :
    viewsOf itemBadViews = 0 ∧ specFirstParseableViews itemBadViews = 5 ∧
    viewsOf itemZeroViews = 7 ∧ specFirstParseableViews itemZeroViews = 0 :=
  ⟨by decide, by decide, by decide, by decide⟩

/-- Claim C6 (amended): the normalized views value is `int()` of the
first Python-truthy value among the `views` and `views_count` fields
(default 0 when neither is truthy), with a failed parse collapsing to 0;
so a truthy unparseable `views` masks a parseable `views_count`, and a
`views` of 0 defers to `views_count`. -/
theorem claim_C6_amended (d : Dict) :
    viewsOf d =
      (match firstTruthyViews d with
        | some v => (intOfPy v).getD 0
        | none => 0) :=
  viewsOf_eq_firstTruthy d

/-- Claim C7 (confirmed): in strict mode every returned record with a
non-empty body contains, after NFKC/lower/whitespace normalization of
both its seed and its body, an occurrence of the normalized seed in the
normalized body flanked on each side by the string edge or by a
character outside the Latin/Cyrillic alphanumeric (plus underscore)
class — the word-boundary phrase match. -/
theorem claim_C7 (cfg : Config) (oracle : RequestParams → PageResp)
    (seeds : List String) (since untl : String) (m : List Dict) (dg : String)
    (r : Dict) (b : String)
    (hex : cfg.requireExact = true)
    (hok : (searchTelemetr cfg oracle seeds since untl).result = .ok (m, dg))
    (hr : r ∈ m) (hb : bodyFromItem r = .ok b) (hbne : b ≠ "") :
    ∃ s, dget r "_seed" = some (.vStr s) ∧
      normBasic cfg.nfkcLower s ≠ "" ∧ normBasic cfg.nfkcLower b ≠ "" ∧
      ∃ i, occursBoundedAt (normBasic cfg.nfkcLower s).data
        (normBasic cfg.nfkcLower b).data i = true := by
  obtain ⟨hm, -, hall⟩ := searchTelemetr_ok cfg oracle seeds since untl m dg hok
  rw [hm] at hr
  obtain ⟨l, hl, hrl⟩ := List.mem_flatten.mp hr
  obtain ⟨s, hs, rfl⟩ := List.mem_map.mp hl
  obtain ⟨so, hso⟩ := hall s hs
  rw [seedMatches_of_ok cfg oracle since untl s so hso] at hrl
  have hml := processSeed_ok_matchLoop cfg oracle since untl s so hso
  obtain ⟨hfm, -⟩ := matchLoop_ok cfg s _ _ hml
  rw [hfm] at hrl
  obtain ⟨d, hd, rfl⟩ := List.mem_map.mp hrl
  have hdf := (List.mem_filter.mp hd).2
  rw [bodyFromItem_mutate] at hb
  have hacc : accepts cfg s b = true := by
    simpa [acceptsD, hb] using hdf
  have hcontains : containsExactPhraseWordBoundary cfg.nfkcLower s b = true := by
    simpa [accepts, hex, hbne] using hacc
  obtain ⟨h1, h2, i, hi⟩ := containsExact_ex cfg.nfkcLower s b hcontains
  exact ⟨s, dget_mutate_seed s d, h1, h2, i, hi⟩

/-- Witness for claim C7, at a strict run whose single returned record
has body `the market report today` for the seed `market report`. -/
theorem claim_C7_witness :
    ∃ s, dget (mutate "market report" (asDict itemShared)) "_seed" = some (.vStr s) ∧
      normBasic cfgStrict.nfkcLower s ≠ "" ∧
      normBasic cfgStrict.nfkcLower "the market report today" ≠ "" ∧
      ∃ i, occursBoundedAt (normBasic cfgStrict.nfkcLower s).data
        (normBasic cfgStrict.nfkcLower "the market report today").data i = true :=
  claim_C7 cfgStrict orcShared ["market report"] "2025-10-01" "2025-10-05"
    (searchTelemetr cfgStrict orcShared ["market report"] "2025-10-01" "2025-10-05").matches
    (searchTelemetr cfgStrict orcShared ["market report"] "2025-10-01" "2025-10-05").diagText
    (mutate "market report" (asDict itemShared)) "the market report today"
    rfl rfl (by decide) rfl (by decide)

/-- Claim C8 (confirmed): for every seed the pages requested are exactly
`1, 2, …, k` with `k` at most the configured page budget; every page
before the last was a full success page (≥ 50 items), and the loop
stopped either because the budget was reached or because the last page
was not a full success page (a short page, a non-success envelope, or a
raised fetch error); moreover the whole request trace is the
concatenation of the per-seed traces over all seeds, so a failure on one
seed never suppresses the requests of the following seeds. -/
theorem claim_C8 (cfg : Config) (oracle : RequestParams → PageResp)
    (seeds : List String) (since untl s : String) (m : List Dict) (dg : String)
    (htok : ¬ cfg.token = "")
    (hok : (searchTelemetr cfg oracle seeds since untl).result = .ok (m, dg)) :
    (searchTelemetr cfg oracle seeds since untl).requests =
      ((seedsRawOf seeds).map (fun t => (seedFetch cfg oracle since untl t).reqs)).flatten ∧
    ∃ k, (seedFetch cfg oracle since untl s).reqs =
        (List.range' 1 k).map (buildParams cfg (normalizeSeed cfg s) since untl) ∧
      k ≤ cfg.pages ∧
      (∀ j, 1 ≤ j → j + 1 ≤ k →
        fullPage (oracle (buildParams cfg (normalizeSeed cfg s) since untl j)) = true) ∧
      (k = cfg.pages ∨ (1 ≤ k ∧
        fullPage (oracle (buildParams cfg (normalizeSeed cfg s) since untl k)) = false)) := by
  constructor
  · obtain ⟨-, hreq, -⟩ := searchTelemetr_ok cfg oracle seeds since untl m dg hok
    rw [hreq]
    congr 1
    apply List.map_congr_left
    intro t ht
    rw [processSeed_snd]
  · refine ⟨attemptsF (stopsAt cfg oracle (normalizeSeed cfg s) since untl) 1 cfg.pages,
      ?_, attemptsF_le _ cfg.pages 1, ?_, ?_⟩
    · exact fetchLoopAux_reqs_eq cfg oracle s (normalizeSeed cfg s) since untl htok cfg.pages 1
    · intro j hj1 hjk
      have hst := attemptsF_earlier (stopsAt cfg oracle (normalizeSeed cfg s) since untl)
        cfg.pages 1 j hj1 (by omega)
      simpa [stopsAt] using hst
    · rcases attemptsF_last (stopsAt cfg oracle (normalizeSeed cfg s) since untl)
        cfg.pages 1 with hk | ⟨hk1, hk2⟩
      · exact Or.inl hk
      · refine Or.inr ⟨hk1, ?_⟩
        have heq : 1 + attemptsF (stopsAt cfg oracle (normalizeSeed cfg s) since untl)
            1 cfg.pages - 1 =
            attemptsF (stopsAt cfg oracle (normalizeSeed cfg s) since untl) 1 cfg.pages := by
          omega
        rw [heq] at hk2
        simpa [stopsAt] using hk2

/-- Witness for claim C8, at a run whose first page is full (50 items)
and whose second page is short: pages 1 and 2 are requested and
pagination stops before the budget of 3. -/
theorem claim_C8_witness :
    (searchTelemetr cfgStrict orcTwoPages ["market report"] "2025-10-01" "2025-10-05").requests =
      ((seedsRawOf ["market report"]).map
        (fun t => (seedFetch cfgStrict orcTwoPages "2025-10-01" "2025-10-05" t).reqs)).flatten ∧
    ∃ k, (seedFetch cfgStrict orcTwoPages "2025-10-01" "2025-10-05" "market report").reqs =
        (List.range' 1 k).map
          (buildParams cfgStrict (normalizeSeed cfgStrict "market report")
            "2025-10-01" "2025-10-05") ∧
      k ≤ cfgStrict.pages ∧
      (∀ j, 1 ≤ j → j + 1 ≤ k →
        fullPage (orcTwoPages (buildParams cfgStrict
          (normalizeSeed cfgStrict "market report") "2025-10-01" "2025-10-05" j)) = true) ∧
      (k = cfgStrict.pages ∨ (1 ≤ k ∧
        fullPage (orcTwoPages (buildParams cfgStrict
          (normalizeSeed cfgStrict "market report") "2025-10-01" "2025-10-05" k)) = false)) :=
  claim_C8 cfgStrict orcTwoPages ["market report"] "2025-10-01" "2025-10-05" "market report"
    (searchTelemetr cfgStrict orcTwoPages ["market report"] "2025-10-01" "2025-10-05").matches
    (searchTelemetr cfgStrict orcTwoPages ["market report"] "2025-10-01" "2025-10-05").diagText
    (by decide) rfl

/-- Claim C9 (counterexample): an *empty mapping* is a mapping, yet it
is counted as malformed (the code tests the coerced dict for falsihood,
and `{}` is falsy) — contradicting "counted as malformed exactly when it
is neither a mapping nor a string". -/
theorem claim_C9_counterexample :
    RawItem.isMapping (RawItem.dict []) = true ∧
    normFilter 0 [RawItem.dict []] = ([], 1) :=
  ⟨rfl, by decide⟩

/-- Claim C9 (amended): a bare string becomes a record whose computed
body is that string stripped of surrounding whitespace; an item is
counted as malformed exactly when its coercion is the empty dict — that
is, when it is neither a mapping with at least one entry nor a string —
and malformed items are only counted: the remaining items of the seed
are still processed (the survivors are exactly the non-empty coercions
meeting the view threshold, in order). -/
theorem claim_C9_amended (minViews : Int) (items : List RawItem) (s : String) :
    normFilter minViews items =
      ((items.map asDict).filter (fun d => !d.isEmpty && decide (minViews ≤ viewsOf d)),
       ((items.map asDict).filter (fun d => d.isEmpty)).length) ∧
    asDict (.str s) = [("text", .vStr s)] ∧
    bodyFromItem (asDict (.str s)) = .ok (pyStrip s) :=
  ⟨normFilter_eq minViews items, rfl, bodyFromItem_str s⟩

/-- Claim C10 (confirmed): every returned record is the coerced raw-item
mapping itself, mutated in place by setting `_seed` to the trimmed
(non-empty, unquoted) seed and `_link` to the extracted link; every
other field passes through unchanged, no new field beyond `_seed` and
`_link` is introduced, and no separate normalized record (body, views,
matchReason) is materialized in the output. -/
theorem claim_C10 (cfg : Config) (oracle : RequestParams → PageResp)
    (seeds : List String) (since untl : String) (m : List Dict) (dg : String) (r : Dict)
    (hok : (searchTelemetr cfg oracle seeds since untl).result = .ok (m, dg))
    (hr : r ∈ m) :
    ∃ s d, s ∈ seedsRawOf seeds ∧ s ≠ "" ∧
      d ∈ seedCandidates cfg oracle since untl s ∧
      (∃ it ∈ seedItems cfg oracle since untl s, d = asDict it) ∧
      r = dset (dset d "_seed" (.vStr s)) "_link" (linkOf d) ∧
      dget r "_seed" = some (.vStr s) ∧
      dget r "_link" = some (linkOf d) ∧
      (∀ k, k ≠ "_seed" → k ≠ "_link" → dget r k = dget d k) ∧
      (∀ k, (dget r k).isSome → k = "_seed" ∨ k = "_link" ∨ (dget d k).isSome) := by
  obtain ⟨hm, -, hall⟩ := searchTelemetr_ok cfg oracle seeds since untl m dg hok
  rw [hm] at hr
  obtain ⟨l, hl, hrl⟩ := List.mem_flatten.mp hr
  obtain ⟨s, hs, rfl⟩ := List.mem_map.mp hl
  obtain ⟨so, hso⟩ := hall s hs
  rw [seedMatches_of_ok cfg oracle since untl s so hso] at hrl
  have hml := processSeed_ok_matchLoop cfg oracle since untl s so hso
  obtain ⟨hfm, -⟩ := matchLoop_ok cfg s _ _ hml
  rw [hfm] at hrl
  obtain ⟨d, hd, rfl⟩ := List.mem_map.mp hrl
  have hdc : d ∈ seedCandidates cfg oracle since untl s := (List.mem_filter.mp hd).1
  have hsne : s ≠ "" := by
    have := (List.mem_filter.mp hs).2
    simpa using this
  obtain ⟨it, hit, hdit, -, -⟩ := mem_normFilter cfg.minViews
    (seedFetch cfg oracle since untl s).items d hdc
  refine ⟨s, d, hs, hsne, hdc, ⟨it, hit, hdit⟩, mutate_eq s d,
    dget_mutate_seed s d, dget_mutate_link s d, ?_, ?_⟩
  · intro k hk1 hk2
    exact dget_mutate_other s d k hk1 hk2
  · intro k hk
    rw [mutate_eq] at hk
    rcases dget_dset_isSome _ _ _ _ hk with h | h
    · exact Or.inr (Or.inl h)
    · rcases dget_dset_isSome _ _ _ _ h with h2 | h2
      · exact Or.inl h2
      · exact Or.inr (Or.inr h2)

/-- Witness for claim C10, at a strict single-seed run returning one
record: it is the coerced provider mapping with `_seed` and `_link`
set. -/
theorem claim_C10_witness :
    ∃ s d, s ∈ seedsRawOf ["market report"] ∧ s ≠ "" ∧
      d ∈ seedCandidates cfgStrict orcShared "2025-10-01" "2025-10-05" s ∧
      (∃ it ∈ seedItems cfgStrict orcShared "2025-10-01" "2025-10-05" s, d = asDict it) ∧
      mutate "market report" (asDict itemShared) =
        dset (dset d "_seed" (.vStr s)) "_link" (linkOf d) ∧
      dget (mutate "market report" (asDict itemShared)) "_seed" = some (.vStr s) ∧
      dget (mutate "market report" (asDict itemShared)) "_link" = some (linkOf d) ∧
      (∀ k, k ≠ "_seed" → k ≠ "_link" →
        dget (mutate "market report" (asDict itemShared)) k = dget d k) ∧
      (∀ k, (dget (mutate "market report" (asDict itemShared)) k).isSome →
        k = "_seed" ∨ k = "_link" ∨ (dget d k).isSome) :=
  claim_C10 cfgStrict orcShared ["market report"] "2025-10-01" "2025-10-05"
    (searchTelemetr cfgStrict orcShared ["market report"] "2025-10-01" "2025-10-05").matches
    (searchTelemetr cfgStrict orcShared ["market report"] "2025-10-01" "2025-10-05").diagText
    (mutate "market report" (asDict itemShared)) rfl (by decide)

end TelemetrSearch
